import Mathlib

/-!
Verification of the canonicalization core of the cvxpy repository against its
specification. The development shallow-embeds the relevant source files:

* `cvxpy/reductions/eliminate_pwl/atom_canonicalizers/norm_inf_canon.py`
  (the epigraph rewrite for the infinity norm);
* `cvxpy/problems/problem.py` (constraint partitioning, canonicalization,
  variable enumeration, matrix assembly bookkeeping, solver dispatch and
  result write-back);
* the affine term algebra exercised by `cvxpy/tests/test_affine_objective.py`
  (the algebra's own module is not among the given files, so its operations
  are modelled from the specification and checked against that test file).

Machine integers do not occur on any verified path; Python integers are
arbitrary precision and are embedded as `Nat`/`Int`.
-/

namespace CVXPY

/-! ## Epigraph rewrite for the infinity norm (`norm_inf_canon.py`)

`norm_inf_canon(expr, args)` reads `x = args[0]`, makes one fresh variable
`t = Variable(*expr.shape)`, broadcasts it with `promoted_t = promote(t,
x.shape)` and returns `(t, [x <= promoted_t, x + promoted_t >= 0])`.
Expressions here use the new-style cvxpy shape, a tuple of dimensions,
embedded as `List Nat`. -/

/-- Expression nodes reachable from `norm_inf_canon`: a (fresh) variable, the
`promote` broadcast, elementwise sum, the scalar zero, and an opaque
canonicalized argument standing for whatever `args[0]` is. -/
inductive NExpr where
  | var (id : Nat) (shape : List Nat)
  | promote (e : NExpr) (target : List Nat)
  | add (a b : NExpr)
  | zero
  | arg (id : Nat) (shape : List Nat)
deriving DecidableEq

/-- Shape of an `NExpr`. `promote` yields its target shape; a sum has its
left operand's shape (the operands agree on every path built here). -/
def NExpr.nshape : NExpr → List Nat
  | .var _ s => s
  | .promote _ t => t
  | .add a _ => a.nshape
  | .zero => []
  | .arg _ s => s

/-- The two constraint forms `norm_inf_canon` builds: `lhs <= rhs` and
`lhs >= rhs`. -/
inductive NConstr where
  | le (lhs rhs : NExpr)
  | ge (lhs rhs : NExpr)
deriving DecidableEq

/-- `norm_inf_canon` from the source: `expr_shape` is `expr.shape` (the
atom's declared output shape), `fresh` the id of the variable `Variable`
mints, `x` the canonicalized argument `args[0]`. -/
def norm_inf_canon (expr_shape : List Nat) (fresh : Nat) (x : NExpr) :
    NExpr × List NConstr :=
  let t := NExpr.var fresh expr_shape
  let promoted_t := NExpr.promote t x.nshape
  (t, [NConstr.le x promoted_t, NConstr.ge (NExpr.add x promoted_t) NExpr.zero])

/-! ## The problem model (`problem.py`)

`Problem` consumes its objective and constraints through `canonical_form()`,
`variables()`, `is_dcp()`, `size` and `coefficients(interface)`, so those
capabilities are embedded as data carried by the canonical objects. -/

/-- A variable reference: stable id and size `(rows, cols)`. -/
structure Var where
  id : Nat
  rows : Nat
  cols : Nat
deriving DecidableEq

/-- A scalar slot id as used by `constraints_matrix`: either the reserved
`s.CONSTANT` slot or one scalar view `var.index_id(row, col)`. -/
inductive PSlot where
  | constant
  | vslot (id row col : Nat)
deriving DecidableEq

/-- A canonical affine expression (also the payload of an affine constraint,
which `problem.py` treats as an affine expression): Python object identity
`objId`, size, the result of `.variables()`, and the result of
`.coefficients(interface)` as a finite slot-to-column-block map. -/
structure AffC where
  objId : Nat
  rows : Nat
  cols : Nat
  vars : List Var
  coeffs : List (PSlot × List Int)
deriving DecidableEq

/-- The structural content of an `AffC`, everything except the Python object
identity. -/
def AffC.structOf (c : AffC) : Nat × Nat × List Var × List (PSlot × List Int) :=
  (c.rows, c.cols, c.vars, c.coeffs)

/-- A constraint object as `filter_constraints` sees it: an
`AffEqConstraint`, an `AffLeqConstraint`, an `SOC` (carrying its cone size
and the `AffLeqConstraint`s its `format()` returns), or any other object,
which matches none of the three `isinstance` tests. -/
inductive CanonConstr where
  | affEq (c : AffC)
  | affLeq (c : AffC)
  | soc (objId : Nat) (size : Nat) (fmt : List AffC)
  | other (objId : Nat)
deriving DecidableEq

/-- Python object identity of a constraint object. -/
def CanonConstr.objId : CanonConstr → Nat
  | .affEq c => c.objId
  | .affLeq c => c.objId
  | .soc i _ _ => i
  | .other i => i

/-- Structural identity: equal in everything but Python object identities. -/
def CanonConstr.structLike : CanonConstr → CanonConstr → Bool
  | .affEq a, .affEq b => a.structOf == b.structOf
  | .affLeq a, .affLeq b => a.structOf == b.structOf
  | .soc _ s1 f1, .soc _ s2 f2 => s1 == s2 && f1.map AffC.structOf == f2.map AffC.structOf
  | .other _, .other _ => true
  | _, _ => false

def CanonConstr.isAffEq : CanonConstr → Bool
  | .affEq _ => true
  | _ => false

def CanonConstr.isAffLeq : CanonConstr → Bool
  | .affLeq _ => true
  | _ => false

def CanonConstr.isSoc : CanonConstr → Bool
  | .soc _ _ _ => true
  | _ => false

/-- `c.size` of a constraint object (`(rows, cols)`); only equality and
inequality constraints are asked for it on the verified paths. -/
def CanonConstr.size : CanonConstr → Nat × Nat
  | .affEq c => (c.rows, c.cols)
  | .affLeq c => (c.rows, c.cols)
  | .soc _ n _ => (n, 1)
  | .other _ => (0, 0)

/-- `c.size` of an `SOC` constraint as `dims['q']` records it. -/
def CanonConstr.coneSize : CanonConstr → Nat
  | .soc _ n _ => n
  | _ => 0

/-- `SOC.format()`: the inequality-form constraints appended to the
inequality bucket; anything else formats to nothing (never called on it). -/
def CanonConstr.format : CanonConstr → List CanonConstr
  | .soc _ _ fmt => fmt.map .affLeq
  | _ => []

/-- `.variables()` of a constraint object. -/
def CanonConstr.cvars : CanonConstr → List Var
  | .affEq c => c.vars
  | .affLeq c => c.vars
  | .soc _ _ fmt => (fmt.map AffC.vars).flatten
  | .other _ => []

/-- The affine-expression view of a constraint, as `constraints_matrix`
consumes it (equality and inequality constraints are used this way). -/
def CanonConstr.toAff : CanonConstr → AffC
  | .affEq c => c
  | .affLeq c => c
  | .soc i n _ => ⟨i, n, 1, [], []⟩
  | .other i => ⟨i, 0, 0, [], []⟩

/-- `list(set(constraints))`: Python's `set` of objects that do not override
`__hash__`/`__eq__` deduplicates by object identity, embedded as keeping the
first occurrence of each `objId` (the set's iteration order is arbitrary in
Python; any fixed order carries the claims about membership). -/
def dedupById (cs : List CanonConstr) : List CanonConstr :=
  go cs []
where
  go : List CanonConstr → List Nat → List CanonConstr
    | [], _ => []
    | c :: rest, seen =>
      if c.objId ∈ seen then go rest seen
      else c :: go rest (c.objId :: seen)

/-- `Problem.filter_constraints`: deduplicate, then partition into
equality / inequality / second-order-cone buckets by `isinstance`. -/
def filter_constraints (constraints : List CanonConstr) :
    List CanonConstr × List CanonConstr × List CanonConstr :=
  let cs := dedupById constraints
  (cs.filter CanonConstr.isAffEq, cs.filter CanonConstr.isAffLeq,
   cs.filter CanonConstr.isSoc)

/-- `dims` as `canonicalize` returns it: `{'l': …, 'q': […], 's': […]}`. -/
structure Dims where
  l : Nat
  q : List Nat
  s : List Nat
deriving DecidableEq

/-- The objective as `Problem` consumes it: `canonical_form()` gives
`(canonAff, canonCs)`, `is_dcp()` gives `dcp`, and `value(primal)` maps the
solver's primal objective to the reported optimum. -/
structure ObjectiveE where
  canonAff : AffC
  canonCs : List CanonConstr
  dcp : Bool
  value : Int → Int

/-- A top-level constraint as `Problem` consumes it: `canonical_form()[1]`
and `is_dcp()`. -/
structure ConstrE where
  canonCs : List CanonConstr
  dcp : Bool

/-- The matrix interface chosen at `Problem` construction
(`target_matrix`). -/
inductive TargetKind where
  | dense
  | sparse
deriving DecidableEq

structure Problem where
  objective : ObjectiveE
  constraints : List ConstrE
  target : TargetKind

/-- `Problem.is_dcp`: `all(exp.is_dcp() for exp in self.constraints +
[self.objective])`. -/
def Problem.is_dcp (p : Problem) : Bool :=
  (p.constraints.map ConstrE.dcp ++ [p.objective.dcp]).all id

/-- The combined constraint list `canonicalize` builds before filtering:
the objective's generated constraints followed by each top-level
constraint's, in order. -/
def Problem.combinedConstraints (p : Problem) : List CanonConstr :=
  p.objective.canonCs ++ (p.constraints.map ConstrE.canonCs).flatten

/-- `Problem.canonicalize`: affine objective, equality bucket, inequality
bucket (with each SOC constraint's `format()` appended after `dims['l']` is
computed), and the cone dimensions. -/
def Problem.canonicalize (p : Problem) :
    AffC × List CanonConstr × List CanonConstr × Dims :=
  let obj := p.objective.canonAff
  let parts := filter_constraints p.combinedConstraints
  let eq_constr := parts.1
  let ineq_constr := parts.2.1
  let soc_constr := parts.2.2
  let l := (ineq_constr.map (fun c => c.size.1 * c.size.2)).sum
  let ineq_constr := ineq_constr ++ (soc_constr.map CanonConstr.format).flatten
  (obj, eq_constr, ineq_constr, ⟨l, soc_constr.map CanonConstr.coneSize, []⟩)

/-- `Problem.variables`, the dict step: the last variable in `vars` whose id
is `k` (a Python dict comprehension keeps the last value written per key). -/
def lastWithId (k : Nat) (vs : List Var) : Option Var :=
  (vs.filter (fun v => v.id == k)).getLast?

/-- `Problem.variables(objective, constraints)`: collect every referenced
variable, deduplicate by id via `{v.id: v for v in vars}`, and return the
survivors sorted ascending by id. -/
def Problem.variables (obj : AffC) (constraints : List CanonConstr) : List Var :=
  let vars := obj.vars ++ (constraints.map CanonConstr.cvars).flatten
  let keys := List.insertionSort (· ≤ ·) (vars.map Var.id).dedup
  keys.filterMap (fun k => lastWithId k vars)

/-- The scalar slots of one variable exactly as `variable_ids`' nested loops
emit them: `for col in range(cols): for row in range(rows)`. -/
def varSlots (v : Var) : List PSlot :=
  (List.range v.cols).flatMap fun col =>
    (List.range v.rows).map fun row => PSlot.vslot v.id row col

/-- `Problem.variable_ids(variables)`: every variable expanded into its
scalar slots, in the variables' order. -/
def Problem.variable_ids (vars : List Var) : List PSlot :=
  vars.flatMap varSlots

/-- Column-major order stated index-wise: slot `k` of an `r × c` variable is
`(row, col) = (k % r, k / r)`. -/
def colMajorSlots (v : Var) : List PSlot :=
  (List.range (v.rows * v.cols)).map fun k =>
    PSlot.vslot v.id (k % v.rows) (k / v.rows)

/-! ### Matrix assembly (`constraints_matrix`, `save_values`, `_solve`) -/

/-- An assembled matrix: its size and the sequence of `block_copy` writes
`(vert_offset, horiz_offset, column block)` performed into the zero
matrix. -/
structure AsmMatrix where
  rows : Nat
  cols : Nat
  writes : List (Nat × Nat × List Int)
deriving DecidableEq

/-- `id in coefficients` / `coefficients[id]` on the coefficient map. -/
def coeffsLookup (m : List (PSlot × List Int)) (k : PSlot) : Option (List Int) :=
  (m.find? (fun p => p.1 == k)).map Prod.snd

/-- The inner loop of `constraints_matrix`: one affine expression's writes,
walking `var_ids` with a running horizontal offset. -/
def rowWrites (coeffs : List (PSlot × List Int)) (ids : List PSlot)
    (vert horiz : Nat) : List (Nat × Nat × List Int) :=
  match ids with
  | [] => []
  | id :: rest =>
    match coeffsLookup coeffs id with
    | some blk => (vert, horiz, blk) :: rowWrites coeffs rest vert (horiz + 1)
    | none => rowWrites coeffs rest vert (horiz + 1)

/-- The outer loop of `constraints_matrix`: vertical offsets accumulate by
each expression's flattened size. -/
def matWrites (affs : List AffC) (ids : List PSlot) (vert : Nat) :
    List (Nat × Nat × List Int) :=
  match affs with
  | [] => []
  | a :: rest => rowWrites a.coeffs ids vert 0 ++ matWrites rest ids (vert + a.rows * a.cols)

/-- `Problem.constraints_matrix(aff_expressions, var_ids, interface)`:
`rows` is the sum of flattened sizes, `cols` the number of slots, and the
content is the sequence of block writes. -/
def Problem.constraints_matrix (affs : List AffC) (ids : List PSlot) : AsmMatrix :=
  ⟨(affs.map (fun a => a.rows * a.cols)).sum, ids.length, matWrites affs ids 0⟩

/-- Negation of an assembled matrix (the `-` on `b` and `h`). -/
def negM (m : AsmMatrix) : AsmMatrix :=
  ⟨m.rows, m.cols, m.writes.map (fun w => (w.1, w.2.1, w.2.2.map (fun x => -x)))⟩

/-- Transpose (the `.T` on the cost row). -/
def transposeM (m : AsmMatrix) : AsmMatrix :=
  ⟨m.cols, m.rows, m.writes.map (fun w => (w.2.1, w.1, w.2.2))⟩

/-- What either backend receives: `(c, G, h, A, b, dims)`. -/
structure BackendInput where
  c : AsmMatrix
  G : AsmMatrix
  h : AsmMatrix
  A : AsmMatrix
  b : AsmMatrix
  dims : Dims
deriving DecidableEq

/-- What `_solve` reads back from a backend: whether it reports success
(cvxopt: `status == 'optimal'`; ecos: `exitFlag == 0`), the diagnostic
status string, the primal objective, and the three flat result vectors. -/
structure BackendResult where
  solved : Bool
  status : String
  pcost : Int
  x : List Int
  y : List Int
  z : List Int
deriving DecidableEq

/-- The two solver backends `_solve` can route to. -/
inductive Backend where
  | conelp
  | ecos
deriving DecidableEq

/-- A value `save_values` attaches: Python keeps `result_vec[offset]` bare
for a `(1,1)` object and builds a `rows × cols` container otherwise. -/
inductive SavedValue where
  | scalar (v : Int)
  | matrix (rows cols : Nat) (data : List Int)
deriving DecidableEq

/-- `Problem.save_values` body: walk objects `(id, rows, cols)`, slice the
result vector at the running offset and attach one value per object. -/
def saveValuesGo (vec : List Int) (objs : List (Nat × Nat × Nat)) (offset : Nat) :
    List (Nat × SavedValue) :=
  match objs with
  | [] => []
  | (i, r, c) :: rest =>
    let value := if r = 1 ∧ c = 1 then SavedValue.scalar (vec.getD offset 0)
                 else SavedValue.matrix r c ((vec.drop offset).take (r * c))
    (i, value) :: saveValuesGo vec rest (offset + r * c)

/-- `Problem.save_values(result_vec, objects)` starting at offset 0. -/
def Problem.save_values (vec : List Int) (objs : List (Nat × Nat × Nat)) :
    List (Nat × SavedValue) :=
  saveValuesGo vec objs 0

/-- `(id, rows, cols)` of a variable, the shape `save_values` uses. -/
def Var.sizeTriple (v : Var) : Nat × Nat × Nat := (v.id, v.rows, v.cols)

/-- `(id, rows, cols)` of a constraint object. -/
def CanonConstr.sizeTriple (c : CanonConstr) : Nat × Nat × Nat :=
  (c.objId, c.size.1, c.size.2)

/-- The matrices `_solve` assembles before choosing a backend: `c` (dense,
transposed cost row), `G`, `h`, `A`, `b` and the cone dimensions. -/
def Problem.assembled (p : Problem) : BackendInput :=
  let r := p.canonicalize
  let obj := r.1
  let eqc := r.2.1
  let ineqc := r.2.2.1
  let dims := r.2.2.2
  let vars := Problem.variables obj (eqc ++ ineqc)
  let ids := Problem.variable_ids vars
  let c := transposeM (Problem.constraints_matrix [obj] ids)
  let A := Problem.constraints_matrix (eqc.map CanonConstr.toAff) ids
  let b := negM (Problem.constraints_matrix (eqc.map CanonConstr.toAff) [PSlot.constant])
  let G := Problem.constraints_matrix (ineqc.map CanonConstr.toAff) ids
  let h := negM (Problem.constraints_matrix (ineqc.map CanonConstr.toAff) [PSlot.constant])
  ⟨c, G, h, A, b, dims⟩

/-- The backend `_solve` targets: cvxopt `conelp` if there are SDP cones, or
`G` has a zero dimension, or the chosen interface is dense; otherwise
ecos. -/
def Problem.routeChoice (p : Problem) : Backend :=
  let inp := p.assembled
  if 0 < inp.dims.s.length ∨ min inp.G.rows inp.G.cols = 0 ∨ p.target = TargetKind.dense
  then Backend.conelp else Backend.ecos

/-- The backend call `_solve` makes: the chosen backend applied to the
assembled input (backends are external collaborators, passed as
functions). -/
def Problem.backendRes (p : Problem) (conelpFn ecosFn : BackendInput → BackendResult) :
    BackendResult :=
  if p.routeChoice = Backend.conelp then conelpFn p.assembled else ecosFn p.assembled

/-- The write-backs a successful solve performs: primal variable values,
equality duals, inequality duals. -/
structure WriteBacks where
  varValues : List (Nat × SavedValue)
  eqDuals : List (Nat × SavedValue)
  ineqDuals : List (Nat × SavedValue)
deriving DecidableEq

/-- Everything `_solve` does after the advisory DCP diagnostic: canonicalize,
assemble, route, call the backend, and either write every value back and
return the objective value, or write nothing back and return the solver's
status string. -/
def Problem.solveCore (p : Problem) (conelpFn ecosFn : BackendInput → BackendResult) :
    Option WriteBacks × (Int ⊕ String) :=
  let r := p.canonicalize
  let eqc := r.2.1
  let ineqc := r.2.2.1
  let vars := Problem.variables r.1 (eqc ++ ineqc)
  let res := p.backendRes conelpFn ecosFn
  if res.solved then
    (some ⟨Problem.save_values res.x (vars.map Var.sizeTriple),
           Problem.save_values res.y (eqc.map CanonConstr.sizeTriple),
           Problem.save_values res.z (ineqc.map CanonConstr.sizeTriple)⟩,
     Sum.inl (p.objective.value res.pcost))
  else (none, Sum.inr res.status)

/-- The diagnostic `_solve` prints before anything else when the DCP check
fails. -/
def Problem.warningsOf (p : Problem) : List String :=
  if p.is_dcp then [] else ["Problem does not follow DCP rules."]

/-- `Problem._solve`: the advisory diagnostic plus the solve pipeline, which
runs in either case. -/
def Problem.solveModel (p : Problem) (conelpFn ecosFn : BackendInput → BackendResult) :
    List String × Option WriteBacks × (Int ⊕ String) :=
  (p.warningsOf, p.solveCore conelpFn ecosFn)

/-- Structural agreement of two problems on everything the solve pipeline
after the DCP check reads: canonical forms, objective value map, and the
chosen matrix interface — the `is_dcp` flags are free to differ. -/
def Problem.sameStructure (p q : Problem) : Prop :=
  p.objective.canonAff = q.objective.canonAff ∧
  p.objective.canonCs = q.objective.canonCs ∧
  p.objective.value = q.objective.value ∧
  p.constraints.map ConstrE.canonCs = q.constraints.map ConstrE.canonCs ∧
  p.target = q.target

/-! ## The affine term algebra (`expressions/affine.py`)

Modelled from the spec: the module defining `AffObjective` is not among the
given source files; only its unit tests (`tests/test_affine_objective.py`)
are. The definitions below follow §3 and §4.1 of the specification — terms
are ordered factor chains with at most one variable, sum concatenates term
collections, product distributes by concatenating chains and must fail when
both operands carry variables, `coefficients` reduces each chain to a
numeric block and accumulates per-slot with summation — and they reproduce
the concrete expectations of the test file (theorems
`model_matches_test_add` … `model_matches_test_coefficients` below). -/

/-- A numeric matrix in column-major layout (cvxopt's layout): the list of
columns. -/
structure CMat where
  rows : Nat
  cols : Nat
  colsData : List (List Int)
deriving DecidableEq

/-- One factor of a term's chain: a constant block or a variable
reference. -/
inductive Factor where
  | const (m : CMat)
  | var (v : Var)
deriving DecidableEq

/-- `AffObjective(variables, terms, shape)` as the tests construct it. -/
structure AffObjective where
  vars : List Var
  terms : List (List Factor)
  shape : Nat × Nat
deriving DecidableEq

/-- Modelled from the spec: the algebra's two fatal error kinds (§7) —
dimension mismatch on incompatible shapes, non-affine composition on a
variable-bearing product. -/
inductive AlgebraError where
  | dimensionMismatch
  | nonAffine
deriving DecidableEq

/-- The exception text: the tests pin `"Incompatible dimensions."` for the
dimension error; the non-affine message is not shown by the given files. -/
def AlgebraError.message : AlgebraError → String
  | .dimensionMismatch => "Incompatible dimensions."
  | .nonAffine => "Non-affine product."

/-- Does the expression carry a variable reference? -/
def AffObjective.hasVars (a : AffObjective) : Bool :=
  !a.vars.isEmpty

/-- Sum: shapes must match exactly (else the dimension-mismatch error); the
term collections and variable lists concatenate. -/
def AffObjective.add (a b : AffObjective) : Except AlgebraError AffObjective :=
  if a.shape = b.shape then
    Except.ok ⟨a.vars ++ b.vars, a.terms ++ b.terms, a.shape⟩
  else Except.error AlgebraError.dimensionMismatch

/-- The payload of a successful sum (what `add` returns when the shapes
agree). -/
def affSum (a b : AffObjective) : AffObjective :=
  ⟨a.vars ++ b.vars, a.terms ++ b.terms, a.shape⟩

/-- Product: matrix-product dimension compatibility is checked first (the
tests expect `"Incompatible dimensions."` for a `2×1 · 2×1` variable
product); then a product of two variable-bearing operands fails with the
non-affine error; otherwise it distributes, concatenating each left factor
chain onto each right term (`constAff * xAff` has the single term
`deque([x, A])`). -/
def AffObjective.mul (a b : AffObjective) : Except AlgebraError AffObjective :=
  if a.shape.2 ≠ b.shape.1 then Except.error AlgebraError.dimensionMismatch
  else if a.hasVars && b.hasVars then Except.error AlgebraError.nonAffine
  else Except.ok ⟨a.vars ++ b.vars,
    b.terms.flatMap (fun tb => a.terms.map (fun ta => tb ++ ta)),
    (a.shape.1, b.shape.2)⟩

/-- The scalar constant `-1` (negation multiplies every term by it,
appending it to the chain: `neg._terms[0][1].name() == "-1"`). -/
def negOne : CMat := ⟨1, 1, [[-1]]⟩

/-- Negation: every term gets the `-1` constant appended. -/
def AffObjective.neg (a : AffObjective) : AffObjective :=
  ⟨a.vars, a.terms.map (fun t => t ++ [Factor.const negOne]), a.shape⟩

/-- A slot id of the coefficient map: the constant-offset slot or one scalar
slot (column-major index `idx`) of a variable. -/
inductive SlotKey where
  | constKey
  | vslot (id idx : Nat)
deriving DecidableEq

/-- Pointwise sum of two column blocks, zero-extended to the longer one. -/
def vecAdd : List Int → List Int → List Int
  | [], ys => ys
  | x :: xs, ys =>
    match ys with
    | [] => x :: xs
    | y :: ys => (x + y) :: vecAdd xs ys

/-- Scale a column by a scalar. -/
def vecScale (c : Int) (v : List Int) : List Int :=
  v.map (fun x => c * x)

/-- Matrix–vector product over the column-major layout. -/
def matVec (a : CMat) (v : List Int) : List Int :=
  (List.zipWith vecScale v a.colsData).foldr vecAdd (List.replicate a.rows 0)

/-- Matrix product over the column-major layout. -/
def matMul (a b : CMat) : CMat :=
  ⟨a.rows, b.cols, b.colsData.map (matVec a)⟩

/-- The identity matrix: a variable's own coefficient block. -/
def idMat (n : Nat) : CMat :=
  ⟨n, n, (List.range n).map fun j => (List.range n).map fun i => if i = j then 1 else 0⟩

/-- Reduce the constant factors of a chain onto an accumulated matrix, in
application order (each later factor multiplies on the left). -/
def constApply (fs : List Factor) (m : CMat) : CMat :=
  fs.foldl (fun acc f =>
    match f with
    | Factor.const c => matMul c acc
    | Factor.var _ => acc) m

/-- Reduce a chain with no leading variable to its constant value. -/
def reduceConstChain (t : List Factor) : CMat :=
  match t with
  | Factor.const c :: rest => constApply rest c
  | _ => ⟨0, 0, []⟩

/-- The per-slot contributions of one term: a variable-led chain contributes
one column per scalar slot of its variable (the reduced constant product
applied to the variable's identity block); a constant chain contributes its
column-major flattening to the constant slot. -/
def termCoeffs (t : List Factor) : List (SlotKey × List Int) :=
  match t with
  | Factor.var v :: rest =>
    let n := v.rows * v.cols
    let M := constApply rest (idMat n)
    (List.range n).map fun j => (SlotKey.vslot v.id j, M.colsData.getD j [])
  | _ => [(SlotKey.constKey, (reduceConstChain t).colsData.flatten)]

/-- A coefficient map: slot id to accumulated column block, first-seen key
order, no repeated keys. -/
abbrev CoeffMap := List (SlotKey × List Int)

/-- Accumulate one contribution into the map, summing when the slot is
already present. -/
def insertAdd (m : CoeffMap) (p : SlotKey × List Int) : CoeffMap :=
  match m with
  | [] => [p]
  | q :: rest => if q.1 = p.1 then (q.1, vecAdd q.2 p.2) :: rest else q :: insertAdd rest p

/-- `coefficients`: walk every term and accumulate its contributions. -/
def AffObjective.coefficients (a : AffObjective) : CoeffMap :=
  ((a.terms.map termCoeffs).flatten).foldl insertAdd []

/-- The block a coefficient map holds for a slot; the empty list (the zero
block under `vecAdd`) when the slot is absent. -/
def coeffAt (m : CoeffMap) (k : SlotKey) : List Int :=
  match m with
  | [] => []
  | q :: rest => if q.1 = k then q.2 else coeffAt rest k

/-- The total contribution of a list of `(slot, block)` pairs to one slot. -/
def contribSum (cs : List (SlotKey × List Int)) (k : SlotKey) : List Int :=
  cs.foldr (fun p acc => if p.1 = k then vecAdd p.2 acc else acc) []

/-! ### Concrete instances from `test_affine_objective.py` -/

/-- `self.x = Variable(2, name='x')`: a 2-vector variable. -/
def xVarEx : Var := ⟨0, 2, 1⟩

/-- `self.y = Variable(2, name='y')`. -/
def yVarEx : Var := ⟨1, 2, 1⟩

/-- `self.A = Constant([[1, 2], [1, 2]])`: a 2×2 constant, columns `[1,2]`
and `[1,2]`. -/
def aMatEx : CMat := ⟨2, 2, [[1, 2], [1, 2]]⟩

/-- `self.xAff = AffObjective([self.x], [deque([self.x])], u.Shape(2,1))`. -/
def xAffEx : AffObjective := ⟨[xVarEx], [[Factor.var xVarEx]], (2, 1)⟩

/-- `self.yAff = AffObjective([self.y], [deque([self.y])], u.Shape(2,1))`. -/
def yAffEx : AffObjective := ⟨[yVarEx], [[Factor.var yVarEx]], (2, 1)⟩

/-- `self.constAff = AffObjective([self.A], [deque([self.A])], u.Shape(2,2))`. -/
def constAffEx : AffObjective := ⟨[], [[Factor.const aMatEx]], (2, 2)⟩

/-- A `1×2` variable-bearing expression, product-compatible with `yAffEx`. -/
def rowAffEx : AffObjective :=
  ⟨[⟨2, 1, 2⟩], [[Factor.var ⟨2, 1, 2⟩]], (1, 2)⟩

/-- Two constraint objects with distinct Python identities and identical
structure. -/
def dupConstrA : CanonConstr := CanonConstr.affEq ⟨0, 1, 1, [], []⟩

/-- The structurally identical twin of `dupConstrA` under a different object
identity. -/
def dupConstrB : CanonConstr := CanonConstr.affEq ⟨1, 1, 1, [], []⟩

/-- A backend stub used to instantiate the dispatch theorems. -/
def exBack : BackendInput → BackendResult :=
  fun _ => ⟨true, "optimal", 0, [], [], []⟩

/-- A DCP-compliant problem over one scalar canonical objective. -/
def exProblemDcp : Problem :=
  ⟨⟨⟨0, 1, 1, [], []⟩, [], true, fun i => i⟩, [], TargetKind.sparse⟩

/-- The same problem with the objective's DCP check failing. -/
def exProblemNonDcp : Problem :=
  ⟨⟨⟨0, 1, 1, [], []⟩, [], false, fun i => i⟩, [], TargetKind.sparse⟩

/-! ## Helper lemmas -/

theorem vecAdd_nil (xs : List Int) : vecAdd xs [] = xs := by
  cases xs <;> rfl

theorem nil_vecAdd (ys : List Int) : vecAdd [] ys = ys := rfl

theorem vecAdd_assoc (x y z : List Int) :
    vecAdd (vecAdd x y) z = vecAdd x (vecAdd y z) := by
  induction x generalizing y z with
  | nil => rfl
  | cons a as ih =>
    cases y with
    | nil => rw [vecAdd_nil]; rfl
    | cons b bs =>
      cases z with
      | nil => rw [vecAdd_nil, vecAdd_nil]
      | cons c cs => simp [vecAdd, ih, Int.add_assoc]

theorem coeffAt_insertAdd (m : CoeffMap) (p : SlotKey × List Int) (k : SlotKey) :
    coeffAt (insertAdd m p) k =
      if p.1 = k then vecAdd (coeffAt m k) p.2 else coeffAt m k := by
  induction m with
  | nil =>
    by_cases h : p.1 = k <;> simp [insertAdd, coeffAt, h, nil_vecAdd]
  | cons q rest ih =>
    simp only [insertAdd]
    by_cases hq : q.1 = p.1
    · by_cases hk : p.1 = k
      · simp [coeffAt, hq, hk, hq.trans hk]
      · have hqk : ¬ q.1 = k := by rw [hq]; exact hk
        simp [coeffAt, hqk, hk, hq]
    · by_cases hqk : q.1 = k
      · have hpk : ¬ p.1 = k := by
          intro hc
          exact hq (by rw [hc, hqk])
        have hkp : ¬ k = p.1 := fun hc => hpk hc.symm
        simp [coeffAt, hq, hqk, hpk, hkp]
      · simp [coeffAt, hq, hqk, ih]

theorem contribSum_cons (c : SlotKey × List Int) (rest : List (SlotKey × List Int))
    (k : SlotKey) :
    contribSum (c :: rest) k =
      if c.1 = k then vecAdd c.2 (contribSum rest k) else contribSum rest k := rfl

theorem coeffAt_foldl (cs : List (SlotKey × List Int)) (m : CoeffMap) (k : SlotKey) :
    coeffAt (cs.foldl insertAdd m) k = vecAdd (coeffAt m k) (contribSum cs k) := by
  induction cs generalizing m with
  | nil => rw [List.foldl_nil]; exact (vecAdd_nil _).symm
  | cons c rest ih =>
    rw [List.foldl_cons, ih, coeffAt_insertAdd, contribSum_cons]
    by_cases h : c.1 = k
    · simp only [h, if_true, vecAdd_assoc]
    · simp only [h, if_false]

theorem contribSum_append (xs ys : List (SlotKey × List Int)) (k : SlotKey) :
    contribSum (xs ++ ys) k = vecAdd (contribSum xs k) (contribSum ys k) := by
  induction xs with
  | nil => rfl
  | cons c rest ih =>
    rw [List.cons_append, contribSum_cons, contribSum_cons, ih]
    by_cases h : c.1 = k
    · simp only [h, if_true, vecAdd_assoc]
    · simp only [h, if_false]

theorem coeffAt_coefficients (a : AffObjective) (k : SlotKey) :
    coeffAt a.coefficients k = contribSum ((a.terms.map termCoeffs).flatten) k := by
  unfold AffObjective.coefficients
  rw [coeffAt_foldl]
  rfl

/-! ## The claims -/

/-- C1: for every infinity-norm atom instance with declared output shape
`sh` and canonicalized argument `x`, `norm_inf_canon` introduces exactly one
fresh variable `t = Variable(*sh)` whose shape is `sh`, broadcasts `t` (and
never `x`) to `x`'s shape, and returns `t` with exactly the two constraints
`x <= promoted_t` and `x + promoted_t >= 0` — nothing else. -/
theorem norm_inf_canon_epigraph (sh : List Nat) (fresh : Nat) (x : NExpr) :
    norm_inf_canon sh fresh x =
      (NExpr.var fresh sh,
       [NConstr.le x (NExpr.promote (NExpr.var fresh sh) x.nshape),
        NConstr.ge (NExpr.add x (NExpr.promote (NExpr.var fresh sh) x.nshape))
          NExpr.zero]) ∧
    (NExpr.var fresh sh).nshape = sh ∧
    (NExpr.promote (NExpr.var fresh sh) x.nshape).nshape = x.nshape :=
  ⟨rfl, rfl, rfl⟩

/-- C4, counterexample to the claim as stated: at the repository's own test
input (`test_mul`, lines 51–53: both operands are variable-bearing `2×1`
expressions), the product fails with the dimension-mismatch error — the very
error `"Incompatible dimensions."` that a shape-incompatible sum raises —
not with a distinct non-affine error. -/
theorem mul_error_coincides_with_dimension_error :
    xAffEx.hasVars = true ∧ yAffEx.hasVars = true ∧
    xAffEx.mul yAffEx = Except.error AlgebraError.dimensionMismatch ∧
    xAffEx.add constAffEx = Except.error AlgebraError.dimensionMismatch ∧
    xAffEx.mul yAffEx ≠ Except.error AlgebraError.nonAffine ∧
    AlgebraError.message AlgebraError.dimensionMismatch = "Incompatible dimensions." := by
  refine ⟨rfl, rfl, rfl, rfl, ?_, rfl⟩
  intro h
  exact absurd (Except.error.inj h) (by decide)

/-- C4 (amended): the product of two variable-bearing affine expressions
always fails; the failure is the non-affine modeling error exactly when the
shapes are product-compatible, and the dimension-mismatch error (shared with
shape-incompatible sums) when they are not. -/
theorem mul_of_two_variable_bearing_fails (a b : AffObjective)
    (ha : a.hasVars = true) (hb : b.hasVars = true) :
    (a.mul b = Except.error AlgebraError.dimensionMismatch ∨
     a.mul b = Except.error AlgebraError.nonAffine) ∧
    (a.shape.2 = b.shape.1 → a.mul b = Except.error AlgebraError.nonAffine) ∧
    (a.shape.2 ≠ b.shape.1 → a.mul b = Except.error AlgebraError.dimensionMismatch) := by
  unfold AffObjective.mul
  by_cases h : a.shape.2 = b.shape.1
  · simp [h, ha, hb]
  · simp [h]

/-- C4, witness: a `1×2` by `2×1` variable-bearing product is
shape-compatible and fails with the non-affine error. -/
theorem mul_of_two_variable_bearing_fails_witness :
    (rowAffEx.mul yAffEx = Except.error AlgebraError.dimensionMismatch ∨
     rowAffEx.mul yAffEx = Except.error AlgebraError.nonAffine) ∧
    (rowAffEx.shape.2 = yAffEx.shape.1 →
      rowAffEx.mul yAffEx = Except.error AlgebraError.nonAffine) ∧
    (rowAffEx.shape.2 ≠ yAffEx.shape.1 →
      rowAffEx.mul yAffEx = Except.error AlgebraError.dimensionMismatch) :=
  mul_of_two_variable_bearing_fails rowAffEx yAffEx rfl rfl

/-- C5: for affine expressions of equal shape the sum succeeds, and the
coefficient map of the sum is the blockwise sum of the two coefficient maps,
zero-extended over the union of the slot ids (`coeffAt` returns the zero
block `[]` off the map's support, and `vecAdd` zero-extends). -/
theorem affine_sum_coefficients (a b : AffObjective) (h : a.shape = b.shape) :
    a.add b = Except.ok (affSum a b) ∧
    ∀ k, coeffAt (affSum a b).coefficients k =
      vecAdd (coeffAt a.coefficients k) (coeffAt b.coefficients k) := by
  constructor
  · simp [AffObjective.add, h, affSum]
  · intro k
    rw [coeffAt_coefficients, coeffAt_coefficients, coeffAt_coefficients]
    show contribSum (((a.terms ++ b.terms).map termCoeffs).flatten) k = _
    rw [List.map_append, List.flatten_append, contribSum_append]

/-- C5, witness: the sum of the test file's `xAff` and `yAff`. -/
theorem affine_sum_coefficients_witness :
    xAffEx.add yAffEx = Except.ok (affSum xAffEx yAffEx) ∧
    ∀ k, coeffAt (affSum xAffEx yAffEx).coefficients k =
      vecAdd (coeffAt xAffEx.coefficients k) (coeffAt yAffEx.coefficients k) :=
  affine_sum_coefficients xAffEx yAffEx rfl

/-- The algebra model reproduces `test_add`: term concatenation on matching
shapes, the dimension error on `xAff + constAff`. -/
theorem model_matches_test_add :
    xAffEx.add yAffEx =
      Except.ok ⟨[xVarEx, yVarEx], [[Factor.var xVarEx], [Factor.var yVarEx]], (2, 1)⟩ ∧
    xAffEx.add constAffEx = Except.error AlgebraError.dimensionMismatch :=
  ⟨rfl, rfl⟩

/-- The algebra model reproduces `test_mul`: `constAff * xAff` has the
single chain `deque([x, A])` and keeps only `x` as a variable. -/
theorem model_matches_test_mul :
    constAffEx.mul xAffEx =
      Except.ok ⟨[xVarEx], [[Factor.var xVarEx, Factor.const aMatEx]], (2, 1)⟩ :=
  rfl

/-- The algebra model reproduces `test_coefficients`: summed contributions
`coeffs[x[0,0].id] == [2, 0]` for `xAff + xAff`, and the product's column
`coeffs[y[0,0].id] == [1, 2]` for `constAff * yAff`. -/
theorem model_matches_test_coefficients :
    coeffAt (affSum xAffEx xAffEx).coefficients (SlotKey.vslot 0 0) = [2, 0] ∧
    coeffAt ((constAffEx.mul yAffEx).toOption.getD ⟨[], [], (0, 0)⟩).coefficients
      (SlotKey.vslot 1 0) = [1, 2] := by
  decide

theorem dedupById_go_nodup (cs : List CanonConstr) :
    ∀ seen : List Nat,
      ((dedupById.go cs seen).map CanonConstr.objId).Nodup ∧
      ∀ i ∈ (dedupById.go cs seen).map CanonConstr.objId, i ∉ seen := by
  induction cs with
  | nil => intro seen; exact ⟨List.nodup_nil, by intro i hi; cases hi⟩
  | cons c rest ih =>
    intro seen
    by_cases h : c.objId ∈ seen
    · simpa [dedupById.go, h] using ih seen
    · obtain ⟨ihn, ihs⟩ := ih (c.objId :: seen)
      refine ⟨?_, ?_⟩
      · simp only [dedupById.go, h, if_false, List.map_cons]
        exact List.nodup_cons.mpr
          ⟨fun hin => (ihs _ hin) (List.mem_cons_self _ _), ihn⟩
      · intro i hi
        simp only [dedupById.go, h, if_false, List.map_cons, List.mem_cons] at hi
        rcases hi with hi | hi
        · exact hi ▸ h
        · exact fun hmem => (ihs i hi) (List.mem_cons_of_mem _ hmem)

theorem dedupById_go_covers (cs : List CanonConstr) :
    ∀ (seen : List Nat) (c : CanonConstr), c ∈ cs → c.objId ∉ seen →
      ∃ c' ∈ dedupById.go cs seen, c'.objId = c.objId := by
  induction cs with
  | nil => intro _ c hc; cases hc
  | cons d rest ih =>
    intro seen c hc hseen
    rcases List.mem_cons.mp hc with hc | hc
    · subst hc
      simp only [dedupById.go, hseen, if_false]
      exact ⟨c, List.mem_cons_self _ _, rfl⟩
    · by_cases hd : d.objId ∈ seen
      · simp only [dedupById.go, hd, if_true]
        exact ih seen c hc hseen
      · simp only [dedupById.go, hd, if_false]
        by_cases hcd : c.objId = d.objId
        · exact ⟨d, List.mem_cons_self _ _, hcd.symm⟩
        · have : c.objId ∉ d.objId :: seen := by
            intro hmem
            rcases List.mem_cons.mp hmem with hmem | hmem
            · exact hcd hmem
            · exact hseen hmem
          obtain ⟨c', hc', hid⟩ := ih (d.objId :: seen) c hc this
          exact ⟨c', List.mem_cons_of_mem _ hc', hid⟩

theorem dedupById_go_sublist (cs : List CanonConstr) :
    ∀ seen : List Nat, ∀ c ∈ dedupById.go cs seen, c ∈ cs := by
  induction cs with
  | nil => intro _ c hc; cases hc
  | cons d rest ih =>
    intro seen c hc
    by_cases hd : d.objId ∈ seen
    · simp only [dedupById.go, hd, if_true] at hc
      exact List.mem_cons_of_mem _ (ih seen c hc)
    · simp only [dedupById.go, hd, if_false] at hc
      rcases List.mem_cons.mp hc with hc | hc
      · exact hc ▸ List.mem_cons_self _ _
      · exact List.mem_cons_of_mem _ (ih _ c hc)

theorem saveValuesGo_ids (vec : List Int) (objs : List (Nat × Nat × Nat)) :
    ∀ off : Nat, (saveValuesGo vec objs off).map Prod.fst = objs.map Prod.fst := by
  induction objs with
  | nil => intro off; rfl
  | cons o rest ih =>
    intro off
    obtain ⟨i, r, c⟩ := o
    simp [saveValuesGo, ih]

/-- C2: `canonicalize` computes `dims['l']` as the sum of `rows*cols` over
the inequality bucket BEFORE any SOC constraint is reformatted; each SOC's
`format()` output is then appended to the inequality bucket in order,
`dims['q']` lists the SOC cone sizes in the SOC constraints' order, and
`dims['s']` is empty. The last conjunct makes the "before" explicit: the
final inequality bucket's total size exceeds `dims['l']` by exactly the
formatted SOC blocks' sizes. -/
theorem canonicalize_cone_bookkeeping (p : Problem) :
    (p.canonicalize.2.2.2).l =
      (((filter_constraints p.combinedConstraints).2.1).map
        (fun c => c.size.1 * c.size.2)).sum ∧
    p.canonicalize.2.1 = (filter_constraints p.combinedConstraints).1 ∧
    p.canonicalize.2.2.1 =
      (filter_constraints p.combinedConstraints).2.1 ++
        (((filter_constraints p.combinedConstraints).2.2).map CanonConstr.format).flatten ∧
    (p.canonicalize.2.2.2).q =
      ((filter_constraints p.combinedConstraints).2.2).map CanonConstr.coneSize ∧
    (p.canonicalize.2.2.2).s = [] ∧
    ((p.canonicalize.2.2.1).map (fun c => c.size.1 * c.size.2)).sum =
      (p.canonicalize.2.2.2).l +
        ((((filter_constraints p.combinedConstraints).2.2).map
          CanonConstr.format).flatten.map (fun c => c.size.1 * c.size.2)).sum := by
  refine ⟨rfl, rfl, rfl, rfl, rfl, ?_⟩
  show (((filter_constraints p.combinedConstraints).2.1 ++
      (((filter_constraints p.combinedConstraints).2.2).map CanonConstr.format).flatten).map
        (fun c => c.size.1 * c.size.2)).sum = _
  rw [List.map_append, List.sum_append]
  rfl

/-- C3, counterexample to the claim as stated: two structurally identical
constraint objects with distinct Python identities (`list(set(...))`
deduplicates by object identity) both survive `filter_constraints` — a
structurally identical pair does not collapse to one constraint. -/
theorem structural_duplicates_not_collapsed :
    CanonConstr.structLike dupConstrA dupConstrB = true ∧
    dupConstrA ≠ dupConstrB ∧
    filter_constraints [dupConstrA, dupConstrB] = ([dupConstrA, dupConstrB], [], []) := by
  decide

/-- C3 (amended): before partitioning, `canonicalize` deduplicates the
combined constraint list by object identity only — each duplicate occurrence
of the same object is dropped (no two survivors share an identity, every
identity keeps one representative drawn from the list), while structurally
identical but distinct objects are all retained; the buckets partition the
deduplicated list. -/
theorem dedup_by_object_identity (cs : List CanonConstr) :
    ((dedupById cs).map CanonConstr.objId).Nodup ∧
    (∀ c ∈ cs, ∃ c' ∈ dedupById cs, c'.objId = c.objId) ∧
    (∀ c ∈ dedupById cs, c ∈ cs) ∧
    filter_constraints cs =
      ((dedupById cs).filter CanonConstr.isAffEq,
       (dedupById cs).filter CanonConstr.isAffLeq,
       (dedupById cs).filter CanonConstr.isSoc) :=
  ⟨(dedupById_go_nodup cs []).1,
   fun c hc => dedupById_go_covers cs [] c hc (by intro h; cases h),
   fun c hc => dedupById_go_sublist cs [] c hc,
   rfl⟩

/-- C10: constraint partitioning is not exhaustive — an object matching none
of the three `isinstance` tests lands in none of the buckets
`filter_constraints` returns, with no error or diagnostic (the function is
total); every bucket holds only constraints of its own kind. -/
theorem unmatched_constraints_silently_dropped (cs : List CanonConstr) :
    (∀ i : Nat,
      CanonConstr.other i ∉ (filter_constraints cs).1 ∧
      CanonConstr.other i ∉ (filter_constraints cs).2.1 ∧
      CanonConstr.other i ∉ (filter_constraints cs).2.2) ∧
    (∀ c ∈ (filter_constraints cs).1, c.isAffEq = true) ∧
    (∀ c ∈ (filter_constraints cs).2.1, c.isAffLeq = true) ∧
    (∀ c ∈ (filter_constraints cs).2.2, c.isSoc = true) := by
  refine ⟨fun i => ⟨?_, ?_, ?_⟩, ?_, ?_, ?_⟩ <;>
    simp only [filter_constraints] <;>
    first
    | (intro h; exact nomatch (List.of_mem_filter h))
    | (intro c hc; exact List.of_mem_filter hc)

theorem lastWithId_spec (k : Nat) (vs : List Var) (v : Var)
    (h : lastWithId k vs = some v) : v.id = k ∧ v ∈ vs := by
  unfold lastWithId at h
  have hmem : v ∈ vs.filter (fun v => v.id == k) := by
    rcases List.getLast?_eq_some_iff.mp h with ⟨ys, hys⟩
    rw [hys]
    exact List.mem_append_right _ (List.mem_singleton_self _)
  have h2 := List.mem_filter.mp hmem
  exact ⟨by simpa using h2.2, h2.1⟩

theorem lastWithId_isSome (k : Nat) (vs : List Var) (h : k ∈ vs.map Var.id) :
    ∃ v, lastWithId k vs = some v := by
  rcases List.mem_map.mp h with ⟨v, hv, hid⟩
  have hmem : v ∈ vs.filter (fun v => v.id == k) :=
    List.mem_filter.mpr ⟨hv, by simp [hid]⟩
  unfold lastWithId
  cases hf : vs.filter (fun v => v.id == k) with
  | nil => rw [hf] at hmem; cases hmem
  | cons a l =>
    exact ⟨(a :: l).getLast (by simp), List.getLast?_eq_getLast _ _⟩

theorem filterMap_lastWithId_ids (vs : List Var) :
    ∀ keys : List Nat, (∀ k ∈ keys, k ∈ vs.map Var.id) →
      (keys.filterMap (fun k => lastWithId k vs)).map Var.id = keys := by
  intro keys
  induction keys with
  | nil => intro _; rfl
  | cons k rest ih =>
    intro h
    obtain ⟨v, hv⟩ := lastWithId_isSome k vs (h k (List.mem_cons_self _ _))
    simp only [List.filterMap_cons, hv, List.map_cons]
    rw [(lastWithId_spec k vs v hv).1, ih (fun x hx => h x (List.mem_cons_of_mem _ hx))]

theorem range_colMajor (id r : Nat) :
    ∀ n, (List.range n).flatMap
        (fun col => (List.range r).map (fun row => PSlot.vslot id row col)) =
      (List.range (r * n)).map (fun k => PSlot.vslot id (k % r) (k / r)) := by
  intro n
  induction n with
  | zero => simp
  | succ m ih =>
    rw [List.range_succ, List.flatMap_append, ih, Nat.mul_succ, List.range_add,
      List.map_append, List.map_map]
    congr 1
    · simp only [List.flatMap_cons, List.flatMap_nil, List.append_nil]
      apply List.map_congr_left
      intro i hi
      have hir : i < r := List.mem_range.mp hi
      have h1 : (r * m + i) % r = i := by
        rw [Nat.add_comm, Nat.add_mul_mod_self_left, Nat.mod_eq_of_lt hir]
      have h2 : (r * m + i) / r = m := by
        rw [Nat.add_comm, Nat.add_mul_div_left i m (Nat.lt_of_le_of_lt (Nat.zero_le i) hir),
          Nat.div_eq_of_lt hir, Nat.zero_add]
      simp [Function.comp, h1, h2]

theorem varSlots_eq_colMajor (v : Var) : varSlots v = colMajorSlots v :=
  range_colMajor v.id v.rows v.cols

/-- C6: variable enumeration and slot ordering are deterministic and
canonical — `variables` deduplicates the collected variables by their stable
id and returns them sorted strictly ascending by id (every survivor comes
from the collected list, every collected variable's id keeps exactly one
survivor), `variable_ids` expands each variable into its `rows*cols` scalar
slots in column-major order (`(k % rows, k / rows)` for slot index `k`), and
two runs on the same unmutated problem are the same pure computation, so
they produce identical output. -/
theorem variable_enumeration_deterministic (obj : AffC) (cs : List CanonConstr) :
    (((Problem.variables obj cs).map Var.id).Sorted (· < ·)) ∧
    (∀ v ∈ Problem.variables obj cs,
      v ∈ obj.vars ++ (cs.map CanonConstr.cvars).flatten) ∧
    (∀ w ∈ obj.vars ++ (cs.map CanonConstr.cvars).flatten,
      ∃ v ∈ Problem.variables obj cs, v.id = w.id) ∧
    (∀ v : Var, varSlots v = colMajorSlots v) ∧
    Problem.variable_ids (Problem.variables obj cs) =
      (Problem.variables obj cs).flatMap varSlots ∧
    (Problem.variables obj cs, Problem.variable_ids (Problem.variables obj cs)) =
      (Problem.variables obj cs, Problem.variable_ids (Problem.variables obj cs)) := by
  have hdef : Problem.variables obj cs =
      (List.insertionSort (· ≤ ·)
        (((obj.vars ++ (cs.map CanonConstr.cvars).flatten).map Var.id).dedup)).filterMap
        (fun k => lastWithId k (obj.vars ++ (cs.map CanonConstr.cvars).flatten)) := rfl
  set vars := obj.vars ++ (cs.map CanonConstr.cvars).flatten with hvars
  set keys := List.insertionSort (· ≤ ·) ((vars.map Var.id).dedup) with hkeys
  have hkeysmem : ∀ k ∈ keys, k ∈ vars.map Var.id := by
    intro k hk
    exact List.mem_dedup.mp ((List.perm_insertionSort _ _).mem_iff.mp hk)
  have hids : (Problem.variables obj cs).map Var.id = keys :=
    filterMap_lastWithId_ids vars keys hkeysmem
  refine ⟨?_, ?_, ?_, varSlots_eq_colMajor, rfl, rfl⟩
  · rw [hids]
    have hsorted : keys.Sorted (· ≤ ·) := List.sorted_insertionSort _ _
    have hnd : keys.Nodup :=
      (List.perm_insertionSort _ _).nodup_iff.mpr (List.nodup_dedup _)
    exact hsorted.lt_of_le hnd
  · intro v hv
    rw [hdef] at hv
    rcases List.mem_filterMap.mp hv with ⟨k, _, hk⟩
    exact (lastWithId_spec k vars v hk).2
  · intro w hw
    have hwid : w.id ∈ (Problem.variables obj cs).map Var.id := by
      rw [hids, hkeys]
      exact (List.perm_insertionSort _ _).mem_iff.mpr
        (List.mem_dedup.mpr (List.mem_map_of_mem Var.id hw))
    rcases List.mem_map.mp hwid with ⟨v, hv, hvid⟩
    exact ⟨v, hv, hvid⟩

/-- C7: backend routing is exactly — cvxopt `conelp` iff the SDP cone list
is non-empty, or `G` has a zero dimension, or the chosen matrix interface is
dense; ecos in every other case; and the routing decision does not alter the
assembled matrices: whichever backend is chosen receives the one assembled
input `p.assembled`. -/
theorem backend_routing_policy (p : Problem) (f g : BackendInput → BackendResult) :
    (p.routeChoice = Backend.conelp ↔
      (p.assembled.dims.s ≠ [] ∨ min p.assembled.G.rows p.assembled.G.cols = 0 ∨
       p.target = TargetKind.dense)) ∧
    (p.routeChoice = Backend.ecos ↔
      ¬(p.assembled.dims.s ≠ [] ∨ min p.assembled.G.rows p.assembled.G.cols = 0 ∨
        p.target = TargetKind.dense)) ∧
    (p.routeChoice = Backend.conelp → p.backendRes f g = f p.assembled) ∧
    (p.routeChoice = Backend.ecos → p.backendRes f g = g p.assembled) := by
  have hchoice : p.routeChoice =
      if 0 < p.assembled.dims.s.length ∨ min p.assembled.G.rows p.assembled.G.cols = 0 ∨
         p.target = TargetKind.dense
      then Backend.conelp else Backend.ecos := rfl
  have hlen : 0 < p.assembled.dims.s.length ↔ p.assembled.dims.s ≠ [] :=
    List.length_pos
  by_cases h : 0 < p.assembled.dims.s.length ∨
      min p.assembled.G.rows p.assembled.G.cols = 0 ∨ p.target = TargetKind.dense
  · have hc : p.routeChoice = Backend.conelp := by rw [hchoice, if_pos h]
    refine ⟨⟨fun _ => ?_, fun _ => hc⟩, ⟨fun he => ?_, fun hn => absurd ?_ hn⟩,
      fun _ => ?_, fun he => ?_⟩
    · rw [← hlen]; exact h
    · rw [hc] at he; cases he
    · rw [← hlen]; exact h
    · unfold Problem.backendRes; rw [if_pos hc]
    · rw [hc] at he; cases he
  · have hc : p.routeChoice = Backend.ecos := by rw [hchoice, if_neg h]
    have hnot : ¬(p.assembled.dims.s ≠ [] ∨
        min p.assembled.G.rows p.assembled.G.cols = 0 ∨ p.target = TargetKind.dense) := by
      rw [← hlen]; exact h
    refine ⟨⟨fun he => ?_, fun hyes => absurd hyes hnot⟩, ⟨fun _ => hnot, fun _ => hc⟩,
      fun he => ?_, fun _ => ?_⟩
    · rw [hc] at he; cases he
    · rw [hc] at he; cases he
    · unfold Problem.backendRes
      rw [if_neg (by rw [hc]; intro he; cases he)]

/-- C8: a solve invocation ends in exactly one of two terminal states — if
the backend reports success, one value is written back per primal variable,
per equality constraint, and per inequality constraint (the write-back
covers the ids exactly, third conjunct) and the objective's value at the
solver's primal objective is returned; otherwise nothing is written back and
the solver's diagnostic status string is returned. -/
theorem solve_two_terminal_states (p : Problem) (f g : BackendInput → BackendResult) :
    ((p.backendRes f g).solved = true →
      p.solveCore f g =
        (some ⟨Problem.save_values (p.backendRes f g).x
                 ((Problem.variables p.canonicalize.1
                   (p.canonicalize.2.1 ++ p.canonicalize.2.2.1)).map Var.sizeTriple),
               Problem.save_values (p.backendRes f g).y
                 (p.canonicalize.2.1.map CanonConstr.sizeTriple),
               Problem.save_values (p.backendRes f g).z
                 (p.canonicalize.2.2.1.map CanonConstr.sizeTriple)⟩,
         Sum.inl (p.objective.value (p.backendRes f g).pcost))) ∧
    ((p.backendRes f g).solved = false →
      p.solveCore f g = (none, Sum.inr (p.backendRes f g).status)) ∧
    (∀ (vec : List Int) (objs : List (Nat × Nat × Nat)),
      (Problem.save_values vec objs).map Prod.fst = objs.map Prod.fst) := by
  refine ⟨?_, ?_, fun vec objs => saveValuesGo_ids vec objs 0⟩
  · intro h
    unfold Problem.solveCore
    rw [if_pos h]
  · intro h
    unfold Problem.solveCore
    rw [if_neg (by rw [h]; intro hc; cases hc)]

/-- C9: failing the DCP check is non-fatal and advisory — `_solve` only
emits the diagnostic line, and the whole pipeline (canonicalization, matrix
assembly, routing, backend call, write-back) computes the same result for
any two problems that agree on everything but their `is_dcp` flags. -/
theorem dcp_check_advisory (p q : Problem) (f g : BackendInput → BackendResult)
    (h : Problem.sameStructure p q) :
    p.solveModel f g = (p.warningsOf, p.solveCore f g) ∧
    p.warningsOf = (if p.is_dcp then [] else ["Problem does not follow DCP rules."]) ∧
    p.solveCore f g = q.solveCore f g := by
  obtain ⟨h1, h2, h3, h4, h5⟩ := h
  have hcomb : p.combinedConstraints = q.combinedConstraints := by
    unfold Problem.combinedConstraints
    rw [h2, h4]
  have hcanon : p.canonicalize = q.canonicalize := by
    unfold Problem.canonicalize
    rw [h1, hcomb]
  have hasm : p.assembled = q.assembled := by
    unfold Problem.assembled
    rw [hcanon]
  have hroute : p.routeChoice = q.routeChoice := by
    unfold Problem.routeChoice
    rw [hasm, h5]
  have hres : p.backendRes f g = q.backendRes f g := by
    unfold Problem.backendRes
    rw [hroute, hasm]
  refine ⟨rfl, rfl, ?_⟩
  unfold Problem.solveCore
  rw [hcanon, hres, h3]

/-- C9, witness: two concrete one-variable problems differing only in the
objective's DCP flag run the identical pipeline; the non-compliant one only
gains the diagnostic line. -/
theorem dcp_check_advisory_witness :
    exProblemDcp.is_dcp = true ∧ exProblemNonDcp.is_dcp = false ∧
    (exProblemDcp.solveModel exBack exBack =
        (exProblemDcp.warningsOf, exProblemDcp.solveCore exBack exBack) ∧
     exProblemDcp.warningsOf =
        (if exProblemDcp.is_dcp then [] else ["Problem does not follow DCP rules."]) ∧
     exProblemDcp.solveCore exBack exBack = exProblemNonDcp.solveCore exBack exBack) :=
  ⟨rfl, rfl,
   dcp_check_advisory exProblemDcp exProblemNonDcp exBack exBack ⟨rfl, rfl, rfl, rfl, rfl⟩⟩

end CVXPY
